import Mathlib

/-!
Verification of the Meridian record store (memory-curator / task-manager
plugin tools).  The definitions below are a shallow embedding of the
TypeScript plugin functions: file contents are modelled as lists of
characters or lists of lines, JavaScript numbers as `Nat` (the IDs in play
are small sequential integers), and the filesystem state as explicit
values threaded through each operation.  JSON parsing of a memory-log
line is abstracted by the `MemLine` inductive: a physical line is
represented by the outcome of `JSON.parse` projected to its `id` field,
which is the only part of the parsed value the code ever reads.
-/

set_option autoImplicit false

deriving instance DecidableEq for Except

namespace Meridian

/-! ### Character / string primitives mirroring the JavaScript runtime -/

/-- The JavaScript whitespace class (`\s`, also used by `String.prototype.trim`):
tab, LF, VT, FF, CR, space, NBSP, line/paragraph separator, BOM.
(The remaining Unicode space separators are omitted; no input in this
development uses them.) -/
def wsChar (c : Char) : Bool :=
  c.toNat == 9 || c.toNat == 10 || c.toNat == 11 || c.toNat == 12 ||
  c.toNat == 13 || c.toNat == 32 || c.toNat == 160 ||
  c.toNat == 0x2028 || c.toNat == 0x2029 || c.toNat == 0xFEFF

/-- `String.prototype.trim` on a character list. -/
def trimChars (s : List Char) : List Char :=
  ((s.dropWhile wsChar).reverse.dropWhile wsChar).reverse

/-- `String.prototype.trim`. -/
def trimString (s : String) : String := ⟨trimChars s.toList⟩

/-- Decimal digit character test (regex `\d`). -/
def isDigitChar (c : Char) : Bool := 48 ≤ c.toNat && c.toNat ≤ 57

/-- The character for a decimal digit `d < 10`. -/
def digitChar (d : Nat) : Char := Char.ofNat (48 + d)

/-- Numeric value of a digit string, as computed by `parseInt(s, 10)` on an
all-digit string (leading zeros allowed). -/
def digitsVal (cs : List Char) : Nat :=
  cs.foldl (fun a c => a * 10 + (c.toNat - 48)) 0

/-- Fuel-indexed decimal conversion (structural recursion so that the
kernel can evaluate it; the fuel never runs out when it exceeds `n`). -/
def natDigitsAux : Nat → Nat → List Char
  | 0, _ => []
  | fuel + 1, n =>
      if n < 10 then [digitChar n]
      else natDigitsAux fuel (n / 10) ++ [digitChar (n % 10)]

/-- Decimal representation of a natural number, as produced by
`Number.prototype.toString` on a non-negative integer. -/
def natDigits (n : Nat) : List Char := natDigitsAux (n + 1) n

/-- `String.prototype.padStart(w, "0")` on a character list. -/
def padZero (w : Nat) (cs : List Char) : List Char :=
  List.replicate (w - cs.length) '0' ++ cs

/-! ### The memory log model -/

/-- One physical line of `memory.jsonl`, abstracted by its `JSON.parse`
outcome projected to the `id` field (the only field the allocator reads):

* `blank`   – a line whose `trim()` is empty (filtered out before parsing);
* `junk`    – a non-blank line on which `JSON.parse` throws, or whose
  parsed `id` field is not a string (in which case `.match` throws and is
  caught identically);
* `record`  – a non-blank line parsing to a value whose `id` field is the
  given string, or is absent (`none`). -/
inductive MemLine where
  | blank : MemLine
  | junk : MemLine
  | record (id : Option String) : MemLine
deriving DecidableEq

/-- Whether a line survives the `filter((line) => line.trim())` step. -/
def MemLine.nonBlank : MemLine → Bool
  | MemLine.blank => false
  | _ => true

/-- `tailLastLine`: last non-blank line of the memory file, `none` when the
file is absent or has no non-blank line. -/
def tailLastLine (fs : Option (List MemLine)) : Option MemLine :=
  match fs with
  | none => none
  | some lines => (lines.filter MemLine.nonBlank).getLast?

/-- The capture of the regex `^mem-(\d{4,})$` applied to an id string,
parsed with `parseInt(·, 10)`; `none` when the pattern does not match. -/
def memIdSuffix (s : String) : Option Nat :=
  match s.toList with
  | 'm' :: 'e' :: 'm' :: '-' :: rest =>
      if 4 ≤ rest.length ∧ rest.all isDigitChar then some (digitsVal rest) else none
  | _ => none

/-- Render a memory id: `` `mem-${n.toString().padStart(4, "0")}` ``. -/
def mkMemId (n : Nat) : String := "mem-" ++ ⟨padZero 4 (natDigits n)⟩

/-- The full-scan accumulator of `getNextMemoryId`: maximum matching
numeric suffix over a list of (already blank-filtered) lines, `0` when no
record matches.  Malformed lines and non-matching ids fall to the catch /
no-match cases and leave the accumulator unchanged. -/
def scanLines (lines : List MemLine) : Nat :=
  lines.foldl
    (fun m l =>
      match l with
      | MemLine.record (some id) =>
          match memIdSuffix id with
          | some n => max m n
          | none => m
      | _ => m) 0

/-- The full-scan fallback of `getNextMemoryId`: `0` when the file is
absent, otherwise the maximum matching suffix of its non-blank lines. -/
def scanMax (fs : Option (List MemLine)) : Nat :=
  match fs with
  | none => 0
  | some lines => scanLines (lines.filter MemLine.nonBlank)

/-- `getNextMemoryId`: fast path parses only the last non-blank line and
adds one to its suffix; any failure (missing line, unparsable JSON, id
absent or not matching `^mem-(\d{4,})$`) falls back to the full scan. -/
def getNextMemoryId (fs : Option (List MemLine)) : String :=
  match tailLastLine fs with
  | some (MemLine.record (some id)) =>
      match memIdSuffix id with
      | some n => mkMemId (n + 1)
      | none => mkMemId (scanMax fs + 1)
  | _ => mkMemId (scanMax fs + 1)

/-- The conditions under which `getNextMemoryId` abandons the fast path,
exactly as the claim words them: last non-blank line absent, unparsable,
or its `id` field missing / not matching the pattern. -/
def tailFallsBack (fs : Option (List MemLine)) : Bool :=
  match tailLastLine fs with
  | none => true
  | some MemLine.blank => true
  | some MemLine.junk => true
  | some (MemLine.record none) => true
  | some (MemLine.record (some id)) => (memIdSuffix id).isNone

/-! ### Tag / link normalization (`splitAndDedupe`) -/

/-- A separator character of the regex class `[,\s]`. -/
def sepChar (c : Char) : Bool := c == ',' || wsChar c

/-- `String.prototype.split(/[,\s]+/)` on characters: the string is cut
at every maximal non-empty run of separator characters (the regex is a
greedy `+` over a character class), keeping the empty pieces that a
leading or trailing run produces, exactly as the JavaScript `split`
does.  A separator character whose successor is also a separator merely
extends the run; otherwise it closes one piece. -/
def splitSepC : List Char → List (List Char)
  | [] => [[]]
  | c :: rest =>
      if sepChar c then
        match rest with
        | r :: _ => if sepChar r then splitSepC rest else [] :: splitSepC rest
        | [] => [] :: splitSepC rest
      else
        match splitSepC rest with
        | [] => [[c]]
        | p :: ps => (c :: p) :: ps

/-- `item.split(/[,\s]+/)` as a list of strings. -/
def splitSep (item : String) : List String :=
  (splitSepC item.toList).map (fun cs => ⟨cs⟩)

/-- `splitAndDedupe`: split every token on `[,\s]+`, drop pieces whose trim
is empty, then push each trimmed piece the first time it is seen.  The
`seen` set and the `result` array always hold the same elements, so both
are modelled by the accumulated result list. -/
def splitAndDedupe (items : List String) : List String :=
  items.foldl
    (fun acc item =>
      ((splitSep item).filter (fun p => trimString p ≠ "")).foldl
        (fun acc p =>
          let t := trimString p
          if t ≠ "" ∧ t ∉ acc then acc ++ [t] else acc)
        acc)
    []

/-- First-seen-order deduplication of a list. -/
def firstSeenDedup (l : List String) : List String :=
  l.foldl (fun acc t => if t ∈ acc then acc else acc ++ [t]) []

/-- Modelled from the spec (for the refinement comparison of C6): split
every input token on `[,\s]+`, trim the pieces, discard empty results over
the whole flattened set, then deduplicate preserving first-seen order. -/
def specSplitNormalize (items : List String) : List String :=
  firstSeenDedup
    ((items.flatMap (fun item => (splitSep item).map trimString)).filter
      (fun t => t ≠ ""))

/-! ### The memory-curator execute operation -/

/-- The arguments of the `memory-curator` tool. -/
structure MemArgs where
  summary : String
  tags : List String
  links : List String

/-- The record serialized to one line of `memory.jsonl`. -/
structure MemEntry where
  id : String
  timestamp : String
  summary : String
  tags : List String
  links : List String
deriving DecidableEq

/-- `memory-curator`'s `execute`: reject an empty / whitespace-only
summary before touching any file, otherwise build the entry and append its
JSON serialization as one line.  The state is the memory file (`none` =
absent); `now` stands for the wall-clock timestamp string.  The appended
line parses back to a record whose `id` field is `entry.id`, hence its
model is `MemLine.record (some entry.id)`. -/
def memoryCuratorExecute (fs : Option (List MemLine)) (now : String) (a : MemArgs) :
    Option (List MemLine) × Except String MemEntry :=
  if trimString a.summary = "" then
    (fs, Except.error "Summary is required and cannot be empty")
  else
    let entry : MemEntry :=
      { id := getNextMemoryId fs
        timestamp := now
        summary := trimString a.summary
        tags := splitAndDedupe a.tags
        links := splitAndDedupe a.links }
    (some (fs.getD [] ++ [MemLine.record (some entry.id)]), Except.ok entry)

/-- Run a sequence of memory appends, stopping at the first error. -/
def runAppends (now : String) : Option (List MemLine) → List MemArgs →
    Except String (Option (List MemLine))
  | fs, [] => Except.ok fs
  | fs, a :: rest =>
      match memoryCuratorExecute fs now a with
      | (fs', Except.ok _) => runAppends now fs' rest
      | (_, Except.error e) => Except.error e

/-- The lines of a possibly-absent file (an absent file reads as empty). -/
def stateLines (fs : Option (List MemLine)) : List MemLine := fs.getD []

/-- The log produced by `n` successive appends: line `k` (0-based) carries
id `mem-(k+1)`. -/
def goodLog (n : Nat) : List MemLine :=
  (List.range n).map (fun k => MemLine.record (some (mkMemId (k + 1))))

/-! ### The task-ID allocator -/

/-- A directory entry as seen by `readdirSync(..., { withFileTypes: true })`. -/
structure DirEntry where
  name : String
  isDir : Bool
deriving DecidableEq

/-- The capture of `^TASK-(\d+)$` applied to a folder name, parsed with
`parseInt(·, 10)`; `none` when the pattern does not match. -/
def taskIdNum (name : String) : Option Nat :=
  match name.toList with
  | 'T' :: 'A' :: 'S' :: 'K' :: '-' :: rest =>
      if rest ≠ [] ∧ rest.all isDigitChar then some (digitsVal rest) else none
  | _ => none

/-- `name.startsWith("TASK-")`. -/
def startsWithTASK (name : String) : Bool :=
  name.toList.take 5 == ['T', 'A', 'S', 'K', '-']

/-- `getNextTaskId`: throws when the tasks directory is missing, otherwise
collects the numbers of subdirectories matching `^TASK-(\d+)$` and returns
`` `TASK-${(max + 1).toString().padStart(3, "0")}` `` (1 when none match). -/
def getNextTaskId (dir : Option (List DirEntry)) : Except String String :=
  match dir with
  | none => Except.error "Tasks directory not found"
  | some items =>
      let taskIds := items.filterMap
        (fun it =>
          if it.isDir ∧ startsWithTASK it.name then taskIdNum it.name else none)
      let nextId := if taskIds = [] then 1 else taskIds.foldl max 0 + 1
      Except.ok ("TASK-" ++ ⟨padZero 3 (natDigits nextId)⟩)

/-! ### The backlog index text patcher (`updateBacklog`)

File contents are lists of characters; all operations mirror the
JavaScript string functions the source uses. -/

/-- `content.split("\n")` on characters (keeps empty pieces, never
returns an empty list). -/
def splitNlC : List Char → List (List Char)
  | [] => [[]]
  | c :: rest =>
      if c = '\n' then [] :: splitNlC rest
      else
        match splitNlC rest with
        | [] => [[c]]
        | p :: ps => (c :: p) :: ps

/-- `lines.join("\n")` on characters. -/
def joinNlC : List (List Char) → List Char
  | [] => []
  | [x] => x
  | x :: y :: ys => x ++ '\n' :: joinNlC (y :: ys)

/-- One line matching `^\s*-\s*id:\s*<taskId>\s*$`.  (Greedy matching of
`\s*` followed by the literal id is exact for ids not beginning with a
whitespace character, which covers every id the tool can pass; the id is
inserted into the regex verbatim, so this also assumes it contains no
regex metacharacters, true of `TASK-###` ids.) -/
def matchIdLineC (taskId : List Char) (line : List Char) : Bool :=
  match line.dropWhile wsChar with
  | '-' :: r1 =>
      match r1.dropWhile wsChar with
      | 'i' :: 'd' :: ':' :: r2 =>
          let r3 := r2.dropWhile wsChar
          r3.take taskId.length == taskId &&
            (r3.drop taskId.length).all wsChar
      | _ => false
  | _ => false

/-- One line matching the unanchored-end pattern `^\s*-\s*id:`. -/
def matchGenericIdC (line : List Char) : Bool :=
  match line.dropWhile wsChar with
  | '-' :: r1 =>
      match r1.dropWhile wsChar with
      | 'i' :: 'd' :: ':' :: _ => true
      | _ => false
  | _ => false

/-- The replace branch of `updateBacklog`: `startIdx` is the first line
matching the task-id pattern, `endIdx` advances past it until the next
generic `id:` line or the end of file, and the old block is spliced out
in favour of `entry`, joining with single newlines only on non-empty
sides (`before + (before ? "\n" : "") + entry + (after ? "\n" + after : "")`). -/
def replaceEntry (lines : List (List Char)) (taskId entry : List Char) :
    List Char :=
  let i := lines.findIdx (matchIdLineC taskId)
  let j := i + 1 +
    ((lines.drop (i + 1)).takeWhile (fun l => !matchGenericIdC l)).length
  let before := joinNlC (lines.take i)
  let after := joinNlC (lines.drop j)
  before ++ (if before = [] then [] else ['\n']) ++ entry ++
    (if after = [] then [] else '\n' :: after)

/-- `updateBacklog(taskId, entry)` as a function from the old file state
(`none` = absent) to the new file content.

* absent file: create `"tasks:\n" + entry + "\n"`;
* a line matches the id pattern (the multiline whole-content regex test
  coincides with a per-line test on the `"\n"`-split lines): splice the
  matched block out and put `entry` in its place (`replaceEntry`);
* otherwise append: `content.trim() + "\n" + entry + "\n"`. -/
def updateBacklogC (file : Option (List Char)) (taskId entry : List Char) :
    List Char :=
  match file with
  | none => "tasks:".toList ++ '\n' :: entry ++ ['\n']
  | some content =>
      let lines := splitNlC content
      if lines.any (matchIdLineC taskId) then replaceEntry lines taskId entry
      else trimChars content ++ '\n' :: entry ++ ['\n']

/-! ### The task-manager state machine -/

/-- A file inside a task folder. -/
structure FsFile where
  name : String
  content : String
deriving DecidableEq

/-- The suffix of a name from its last `'.'` (inclusive); when there is no
dot, `name.substring(name.lastIndexOf("."))` is `substring(-1)` =
`substring(0)`, the whole name. -/
def lastDotSuffix : List Char → Option (List Char)
  | [] => none
  | c :: rest =>
      match lastDotSuffix rest with
      | some s => some s
      | none => if c = '.' then some (c :: rest) else none

/-- `name.substring(name.lastIndexOf("."))`. -/
def extOfC (cs : List Char) : List Char := (lastDotSuffix cs).getD cs

/-- ASCII lowercasing (`String.prototype.toLowerCase` restricted to the
ASCII range, which covers the extensions compared here). -/
def lowerChar (c : Char) : Char :=
  if 65 ≤ c.toNat ∧ c.toNat ≤ 90 then Char.ofNat (c.toNat + 32) else c

/-- Whether `s` begins with `pat`. -/
def startsWithC : List Char → List Char → Bool
  | [], _ => true
  | _ :: _, [] => false
  | p :: ps, c :: cs => p == c && startsWithC ps cs

/-- `s.includes(pat)`. -/
def containsSubC (pat : List Char) : List Char → Bool
  | [] => startsWithC pat []
  | c :: rest => startsWithC pat (c :: rest) || containsSubC pat rest

/-- `s.replace(pat, rep)` with a string pattern: replace the leftmost
occurrence only; return `s` unchanged when there is none. -/
def replaceFirstC (pat rep : List Char) : List Char → List Char
  | [] => if startsWithC pat [] then rep else []
  | c :: rest =>
      if startsWithC pat (c :: rest) then rep ++ (c :: rest).drop pat.length
      else c :: replaceFirstC pat rep rest

/-- The renameable extensions of `renameTemplateFiles`. -/
def renameExts : List String := [".yaml", ".yml", ".md"]

/-- One iteration of the `renameTemplateFiles` loop for snapshot name
`nm`: skip names whose lowercased extension is not in `renameExts` or that
do not contain `TASK-000`; otherwise fail if the renamed target already
exists in the current folder state, else rename. -/
def renameStep (taskId : String) (st : List FsFile) (nm : String) :
    Except String (List FsFile) :=
  let ext : String := ⟨(extOfC nm.toList).map lowerChar⟩
  if ext ∈ renameExts then
    if containsSubC "TASK-000".toList nm.toList then
      let newName : String := ⟨replaceFirstC "TASK-000".toList taskId.toList nm.toList⟩
      if st.any (fun f => f.name = newName) then
        Except.error "rename target already exists"
      else
        Except.ok (st.map (fun f => if f.name = nm then { f with name := newName } else f))
    else Except.ok st
  else Except.ok st

/-- `renameTemplateFiles`: iterate over a snapshot of the directory
listing taken before any rename, threading the evolving folder state. -/
def renameTemplateFiles (st : List FsFile) (taskId : String) :
    Except String (List FsFile) :=
  (st.map FsFile.name).foldlM (renameStep taskId) st

/-- `writeFileSync` into a folder: overwrite the file when present,
create it otherwise. -/
def writeFile (files : List FsFile) (nm content : String) : List FsFile :=
  if files.any (fun f => f.name = nm) then
    files.map (fun f => if f.name = nm then ⟨nm, content⟩ else f)
  else files ++ [⟨nm, content⟩]

/-- The arguments of the `task-manager` tool. -/
structure TaskArgs where
  taskId : Option String
  taskBrief : Option String
  planContent : Option String
  contextContent : Option String
  backlogEntry : Option String

/-- JavaScript truthiness of an optional string argument: `undefined` and
`""` are falsy. -/
def truthy : Option String → Bool
  | none => false
  | some s => s ≠ ""

/-- The `.meridian` state the task-manager touches: the task folders
(name, files) under the tasks directory, and the backlog file. -/
structure MeridianFs where
  taskDirs : List (String × List FsFile)
  backlog : Option (List Char)
deriving DecidableEq

/-- `existsSync` / read of a task folder. -/
def lookupDir (fs : MeridianFs) (nm : String) : Option (List FsFile) :=
  (fs.taskDirs.find? (fun p => p.1 = nm)).map Prod.snd

/-- Write a task folder's contents (replace when present, add at the
end otherwise). -/
def setDir (fs : MeridianFs) (nm : String) (files : List FsFile) : MeridianFs :=
  { fs with
    taskDirs :=
      if fs.taskDirs.any (fun p => p.1 = nm) then
        fs.taskDirs.map (fun p => if p.1 = nm then (nm, files) else p)
      else fs.taskDirs ++ [(nm, files)] }

/-- `task-manager` update mode (lines 326–367): the supplied `taskId` is
used verbatim as the folder name; a missing folder is an error and nothing
is written; otherwise each truthy content argument overwrites its file,
a truthy backlog entry patches the backlog, and if nothing was truthy the
call reports a no-op without modifying anything. -/
def taskManagerUpdate (fs : MeridianFs) (tid : String) (a : TaskArgs) :
    MeridianFs × Except String String :=
  match lookupDir fs tid with
  | none => (fs, Except.error ("Task not found: " ++ tid))
  | some d0 =>
      let d1 := if truthy a.taskBrief then
          writeFile d0 (tid ++ ".yaml") (a.taskBrief.getD "") else d0
      let d2 := if truthy a.planContent then
          writeFile d1 (tid ++ "-plan.md") (a.planContent.getD "") else d1
      let d3 := if truthy a.contextContent then
          writeFile d2 (tid ++ "-context.md") (a.contextContent.getD "") else d2
      let fs1 := setDir fs tid d3
      let fs2 := if truthy a.backlogEntry then
          { fs1 with
            backlog := some (updateBacklogC fs1.backlog tid.toList
              ((a.backlogEntry.getD "").toList)) }
        else fs1
      if truthy a.taskBrief ∨ truthy a.planContent ∨ truthy a.contextContent ∨
          truthy a.backlogEntry then
        (fs2, Except.ok ("Task updated: " ++ tid))
      else
        (fs, Except.ok ("Task not modified: " ++ tid))

/-- `task-manager` create mode (lines 368–433): allocate the next id from
the current folder names, require the template folder, require the
destination to be new, copy the template's files, rename the placeholder
names (a rename failure leaves the half-initialized destination in
place, as the thrown error propagates after the copies), then apply the
optional content overrides and backlog entry. -/
def taskManagerCreate (fs : MeridianFs) (a : TaskArgs) :
    MeridianFs × Except String String :=
  match getNextTaskId (some (fs.taskDirs.map (fun p => ⟨p.1, true⟩))) with
  | Except.error e => (fs, Except.error e)
  | Except.ok tid =>
      match lookupDir fs "TASK-000-template" with
      | none => (fs, Except.error "Template directory not found")
      | some tmpl =>
          if (lookupDir fs tid).isSome then
            (fs, Except.error ("Task already exists: " ++ tid))
          else
            match renameTemplateFiles tmpl tid with
            | Except.error e => (setDir fs tid tmpl, Except.error e)
            | Except.ok renamed =>
                let d1 := if truthy a.taskBrief then
                    writeFile renamed (tid ++ ".yaml") (a.taskBrief.getD "") else renamed
                let d2 := if truthy a.planContent then
                    writeFile d1 (tid ++ "-plan.md") (a.planContent.getD "") else d1
                let d3 := if truthy a.contextContent then
                    writeFile d2 (tid ++ "-context.md") (a.contextContent.getD "") else d2
                let fs1 := setDir fs tid d3
                let fs2 := if truthy a.backlogEntry then
                    { fs1 with
                      backlog := some (updateBacklogC fs1.backlog tid.toList
                        ((a.backlogEntry.getD "").toList)) }
                  else fs1
                (fs2, Except.ok ("Task created: " ++ tid))

/-- `task-manager`'s `execute`: `isUpdate = !!args.taskId`, so a missing
or empty `taskId` selects create mode, anything else update mode. -/
def taskManagerExecute (fs : MeridianFs) (a : TaskArgs) :
    MeridianFs × Except String String :=
  match a.taskId with
  | some tid => if tid ≠ "" then taskManagerUpdate fs tid a else taskManagerCreate fs a
  | none => taskManagerCreate fs a

/-! ## Infrastructure lemmas -/

theorem digitChar_toNat : ∀ d : Nat, d < 10 → (digitChar d).toNat = 48 + d := by
  decide

theorem isDigitChar_digitChar : ∀ d : Nat, d < 10 → isDigitChar (digitChar d) = true := by
  decide

theorem digitsVal_append (l : List Char) (c : Char) :
    digitsVal (l ++ [c]) = digitsVal l * 10 + (c.toNat - 48) := by
  simp [digitsVal, List.foldl_append]

theorem natDigits_ne_nil (n : Nat) : natDigits n ≠ [] := by
  simp only [natDigits, natDigitsAux]
  split
  · simp
  · simp

theorem natDigitsAux_all_digits :
    ∀ fuel n : Nat, n < fuel → (natDigitsAux fuel n).all isDigitChar = true := by
  intro fuel
  induction fuel with
  | zero => intro n h; omega
  | succ fuel ih =>
    intro n h
    simp only [natDigitsAux]
    split
    · next h10 => simp [isDigitChar_digitChar n h10]
    · next h10 =>
      have hdiv : n / 10 < n := Nat.div_lt_self (by omega) (by omega)
      have h1 := ih (n / 10) (by omega)
      have h2 := isDigitChar_digitChar (n % 10) (Nat.mod_lt _ (by omega))
      simp [List.all_append, h1, h2]

theorem natDigits_all_digits (n : Nat) : (natDigits n).all isDigitChar = true :=
  natDigitsAux_all_digits (n + 1) n (by omega)

theorem digitsVal_natDigitsAux :
    ∀ fuel n : Nat, n < fuel → digitsVal (natDigitsAux fuel n) = n := by
  intro fuel
  induction fuel with
  | zero => intro n h; omega
  | succ fuel ih =>
    intro n h
    simp only [natDigitsAux]
    split
    · next h10 =>
      have := digitChar_toNat n h10
      simp [digitsVal]
      omega
    · next h10 =>
      rw [digitsVal_append]
      have hdiv : n / 10 < n := Nat.div_lt_self (by omega) (by omega)
      have h1 := ih (n / 10) (by omega)
      have h2 := digitChar_toNat (n % 10) (Nat.mod_lt _ (by omega))
      omega

theorem digitsVal_natDigits (n : Nat) : digitsVal (natDigits n) = n :=
  digitsVal_natDigitsAux (n + 1) n (by omega)

theorem digitsVal_padZero (w : Nat) (l : List Char) :
    digitsVal (padZero w l) = digitsVal l := by
  have key : ∀ k : Nat,
      List.foldl (fun a c => a * 10 + (c.toNat - 48)) 0 (List.replicate k '0') = 0 := by
    intro k
    induction k with
    | zero => rfl
    | succ k ihk => simpa [List.replicate_succ] using ihk
  simp [padZero, digitsVal, List.foldl_append, key]

theorem padZero_length (w : Nat) (l : List Char) : w ≤ (padZero w l).length := by
  simp [padZero]
  omega

theorem padZero_all_digits (w : Nat) (l : List Char)
    (h : l.all isDigitChar = true) : (padZero w l).all isDigitChar = true := by
  have hz : ∀ k : Nat, (List.replicate k '0').all isDigitChar = true := by
    intro k
    induction k with
    | zero => rfl
    | succ k ihk => simp [List.replicate_succ, isDigitChar, ihk]
  simp [padZero, List.all_append, hz, h]

theorem toList_mkMemId (n : Nat) :
    (mkMemId n).toList = 'm' :: 'e' :: 'm' :: '-' :: padZero 4 (natDigits n) := rfl

theorem memIdSuffix_mkMemId (n : Nat) : memIdSuffix (mkMemId n) = some n := by
  rw [memIdSuffix, toList_mkMemId]
  have h4 := padZero_length 4 (natDigits n)
  have hd := padZero_all_digits 4 (natDigits n) (natDigits_all_digits n)
  simp only [hd, h4, and_true, if_pos, true_and]
  · rw [digitsVal_padZero, digitsVal_natDigits]

/-! ## C1 — full-scan fallback of the memory-ID allocator -/

theorem tailLastLine_concat_junk (pre : List MemLine) :
    tailLastLine (some (pre ++ [MemLine.junk])) = some MemLine.junk := by
  simp [tailLastLine, List.filter_append, MemLine.nonBlank, List.getLast?_concat]

theorem scanMax_concat_junk (pre : List MemLine) :
    scanMax (some (pre ++ [MemLine.junk])) = scanMax (some pre) := by
  simp [scanMax, List.filter_append, MemLine.nonBlank, scanLines, List.foldl_append]

/-- C1: whenever the last non-blank line of the memory log is absent,
unparsable as JSON, or carries an `id` not matching `^mem-(\d{4,})$`, the
allocator returns the full-scan result: every line is parsed
independently, malformed lines are skipped, and the answer is
`mem-(max+1)` zero-padded; in particular appending a corrupted JSON line
to any log makes the allocator return the (zero-padded) successor of the
maximum valid suffix of the earlier lines. -/
theorem c1_full_scan_fallback :
    (∀ fs : Option (List MemLine), tailFallsBack fs = true →
      getNextMemoryId fs = mkMemId (scanMax fs + 1)) ∧
    (∀ pre : List MemLine,
      getNextMemoryId (some (pre ++ [MemLine.junk])) =
        mkMemId (scanMax (some pre) + 1)) := by
  have main : ∀ fs : Option (List MemLine), tailFallsBack fs = true →
      getNextMemoryId fs = mkMemId (scanMax fs + 1) := by
    intro fs hfb
    unfold getNextMemoryId
    unfold tailFallsBack at hfb
    cases h : tailLastLine fs with
    | none => rfl
    | some l =>
      rw [h] at hfb
      cases l with
      | blank => rfl
      | junk => rfl
      | record oid =>
        cases oid with
        | none => rfl
        | some id =>
          have hfb' : (memIdSuffix id).isNone = true := hfb
          show (match memIdSuffix id with
            | some n => mkMemId (n + 1)
            | none => mkMemId (scanMax fs + 1)) = mkMemId (scanMax fs + 1)
          cases hs : memIdSuffix id with
          | none => rfl
          | some k => rw [hs] at hfb'; simp [Option.isNone] at hfb'
  refine ⟨main, fun pre => ?_⟩
  have h1 := main (some (pre ++ [MemLine.junk]))
    (by unfold tailFallsBack; rw [tailLastLine_concat_junk])
  rw [h1, scanMax_concat_junk]

theorem c1_witness :
    tailFallsBack (some [MemLine.record (some "mem-0005"), MemLine.junk]) = true ∧
    getNextMemoryId (some [MemLine.record (some "mem-0005"), MemLine.junk]) =
      mkMemId (scanMax (some [MemLine.record (some "mem-0005"), MemLine.junk]) + 1) :=
  ⟨by decide, c1_full_scan_fallback.1 _ (by decide)⟩

/-! ## C3 — first-ID allocation on empty / missing backing storage -/

/-- C3 counterexample: the claim says a missing tasks directory is not an
error and allocation returns `TASK-001`; the code throws
`Tasks directory not found` instead. -/
theorem c3_counterexample :
    getNextTaskId none = Except.error "Tasks directory not found" := by
  rfl

/-- C3 (amended): an empty or missing memory file allocates `mem-0001`,
and an empty tasks directory allocates `TASK-001`; but a *missing* tasks
directory is an error (`Tasks directory not found`), not a successful
first allocation. -/
theorem c3_first_ids :
    getNextMemoryId none = "mem-0001" ∧
    getNextMemoryId (some []) = "mem-0001" ∧
    getNextTaskId (some []) = Except.ok "TASK-001" ∧
    getNextTaskId none = Except.error "Tasks directory not found" := by
  refine ⟨by decide, by decide, by decide, rfl⟩

/-! ## C4 — zero-padding width of allocated IDs -/

theorem getNextMemoryId_shape (fs : Option (List MemLine)) :
    ∃ k : Nat, getNextMemoryId fs = mkMemId k := by
  unfold getNextMemoryId
  split
  · split
    · exact ⟨_, rfl⟩
    · exact ⟨_, rfl⟩
  · exact ⟨_, rfl⟩

/-- C4 counterexample: after an existing 5-digit memory ID `mem-00123`
(respectively a 4-digit task folder `TASK-0005`), the allocated ID has
only the floor width of 4 (resp. 3) digits — fewer than the observed
width, contradicting the claim. -/
theorem c4_counterexample :
    getNextMemoryId (some [MemLine.record (some "mem-00123")]) = "mem-0124" ∧
    ("mem-0124").length < ("mem-00123").length ∧
    getNextTaskId (some [⟨"TASK-0005", true⟩]) = Except.ok "TASK-006" ∧
    ("TASK-006").length < ("TASK-0005").length := by
  refine ⟨by decide, by decide, by decide, by decide⟩

/-- C4 (amended): the allocated ID's numeric part is zero-padded to at
least the fixed floor width — 4 digits for memory IDs, 3 for task IDs —
and consists of digits only; the padding does not track the width observed
among existing IDs. -/
theorem c4_floor_padding :
    (∀ fs : Option (List MemLine), ∃ cs : List Char,
      getNextMemoryId fs = "mem-" ++ ⟨cs⟩ ∧ 4 ≤ cs.length ∧
        cs.all isDigitChar = true) ∧
    (∀ items : List DirEntry, ∃ cs : List Char,
      getNextTaskId (some items) = Except.ok ("TASK-" ++ ⟨cs⟩) ∧ 3 ≤ cs.length ∧
        cs.all isDigitChar = true) := by
  constructor
  · intro fs
    obtain ⟨k, hk⟩ := getNextMemoryId_shape fs
    exact ⟨padZero 4 (natDigits k), hk, padZero_length 4 _,
      padZero_all_digits 4 _ (natDigits_all_digits k)⟩
  · intro items
    refine ⟨padZero 3 (natDigits
      (if items.filterMap
          (fun it => if it.isDir ∧ startsWithTASK it.name then taskIdNum it.name else none) = []
        then 1
        else (items.filterMap
          (fun it => if it.isDir ∧ startsWithTASK it.name then taskIdNum it.name else none)).foldl
            max 0 + 1)), rfl, padZero_length 3 _,
      padZero_all_digits 3 _ (natDigits_all_digits _)⟩

/-! ## C2 — invariant of successive memory appends -/

theorem goodLog_succ (n : Nat) :
    goodLog (n + 1) = goodLog n ++ [MemLine.record (some (mkMemId (n + 1)))] := by
  simp [goodLog, List.range_succ]

theorem filter_nonBlank_goodLog (n : Nat) :
    (goodLog n).filter MemLine.nonBlank = goodLog n := by
  rw [List.filter_eq_self]
  intro l hl
  simp only [goodLog, List.mem_map] at hl
  obtain ⟨k, -, rfl⟩ := hl
  rfl

theorem getNextMemoryId_goodLog (n : Nat) :
    getNextMemoryId (some (goodLog n)) = mkMemId (n + 1) := by
  cases n with
  | zero => rfl
  | succ n =>
    have htail : tailLastLine (some (goodLog (n + 1))) =
        some (MemLine.record (some (mkMemId (n + 1)))) := by
      show ((goodLog (n + 1)).filter MemLine.nonBlank).getLast? =
        some (MemLine.record (some (mkMemId (n + 1))))
      rw [filter_nonBlank_goodLog, goodLog_succ n, List.getLast?_concat]
    unfold getNextMemoryId
    rw [htail]
    show (match memIdSuffix (mkMemId (n + 1)) with
      | some m => mkMemId (m + 1)
      | none => mkMemId (scanMax (some (goodLog (n + 1))) + 1)) = mkMemId (n + 1 + 1)
    rw [memIdSuffix_mkMemId]

theorem runAppends_goodLog (now : String) :
    ∀ inputs : List MemArgs, (∀ a ∈ inputs, trimString a.summary ≠ "") →
      ∀ n : Nat, runAppends now (some (goodLog n)) inputs =
        Except.ok (some (goodLog (n + inputs.length))) := by
  intro inputs
  induction inputs with
  | nil => intro _ n; simp [runAppends]
  | cons a rest ih =>
    intro hvalid n
    have ha : trimString a.summary ≠ "" := hvalid a (by simp)
    have hrest : ∀ b ∈ rest, trimString b.summary ≠ "" := by
      intro b hb; exact hvalid b (by simp [hb])
    unfold runAppends
    unfold memoryCuratorExecute
    rw [if_neg ha]
    simp only [Option.getD, getNextMemoryId_goodLog n]
    rw [← goodLog_succ n]
    have := ih hrest (n + 1)
    rw [this, (by simp only [List.length_cons]; omega :
      n + 1 + rest.length = n + (a :: rest).length)]

/-- C2: starting from an empty or absent log, any sequence of `N` valid
appends (non-blank summaries) succeeds and leaves a log of exactly `N`
lines, each a JSON record whose `id` is `mem-(k+1)` for line `k` — a
strictly increasing run starting at `mem-0001`, each id matching
`^mem-(\d{4,})$` with a numeric part zero-padded to at least 4 digits. -/
theorem c2_append_run (now : String) (inputs : List MemArgs)
    (hvalid : ∀ a ∈ inputs, trimString a.summary ≠ "")
    (start : Option (List MemLine)) (hstart : start = none ∨ start = some []) :
    ∃ st' : Option (List MemLine),
      runAppends now start inputs = Except.ok st' ∧
      stateLines st' = goodLog inputs.length ∧
      (stateLines st').length = inputs.length ∧
      ∀ k : Nat, memIdSuffix (mkMemId (k + 1)) = some (k + 1) ∧
        ∃ cs : List Char, mkMemId (k + 1) = "mem-" ++ ⟨cs⟩ ∧ 4 ≤ cs.length := by
  have hprops : ∀ k : Nat, memIdSuffix (mkMemId (k + 1)) = some (k + 1) ∧
      ∃ cs : List Char, mkMemId (k + 1) = "mem-" ++ ⟨cs⟩ ∧ 4 ≤ cs.length := by
    intro k
    exact ⟨memIdSuffix_mkMemId (k + 1),
      padZero 4 (natDigits (k + 1)), rfl, padZero_length 4 _⟩
  have hlen : (goodLog inputs.length).length = inputs.length := by
    simp [goodLog]
  rcases hstart with rfl | rfl
  · cases inputs with
    | nil => exact ⟨none, rfl, rfl, rfl, hprops⟩
    | cons a rest =>
      have ha : trimString a.summary ≠ "" := hvalid a (by simp)
      have hrest : ∀ b ∈ rest, trimString b.summary ≠ "" := by
        intro b hb; exact hvalid b (by simp [hb])
      refine ⟨some (goodLog (a :: rest).length), ?_, rfl, ?_, hprops⟩
      · unfold runAppends
        unfold memoryCuratorExecute
        rw [if_neg ha]
        have h1 : (none : Option (List MemLine)).getD [] ++
            [MemLine.record (some (getNextMemoryId none))] = goodLog 1 := rfl
        simp only [h1]
        have := runAppends_goodLog now rest hrest 1
        rw [this, (by simp only [List.length_cons]; omega :
          1 + rest.length = (a :: rest).length)]
      · simpa using hlen
  · refine ⟨some (goodLog inputs.length), ?_, rfl, by simpa using hlen, hprops⟩
    have h0 : (some ([] : List MemLine)) = some (goodLog 0) := rfl
    rw [h0, runAppends_goodLog now inputs hvalid 0]
    simp

theorem c2_witness :
    (∀ a ∈ [MemArgs.mk "first note" ["a, b"] [], MemArgs.mk "second note" [] []],
      trimString a.summary ≠ "") ∧
    ((none : Option (List MemLine)) = none ∨ (none : Option (List MemLine)) = some []) ∧
    ∃ st' : Option (List MemLine),
      runAppends "2026-01-01T00:00:00Z" none
          [MemArgs.mk "first note" ["a, b"] [], MemArgs.mk "second note" [] []] =
        Except.ok st' ∧
      stateLines st' = goodLog 2 ∧
      (stateLines st').length = 2 ∧
      ∀ k : Nat, memIdSuffix (mkMemId (k + 1)) = some (k + 1) ∧
        ∃ cs : List Char, mkMemId (k + 1) = "mem-" ++ ⟨cs⟩ ∧ 4 ≤ cs.length := by
  refine ⟨by intro a ha; fin_cases ha <;> decide, Or.inl rfl, ?_⟩
  exact c2_append_run "2026-01-01T00:00:00Z"
    [MemArgs.mk "first note" ["a, b"] [], MemArgs.mk "second note" [] []]
    (by intro a ha; fin_cases ha <;> decide) none (Or.inl rfl)

/-! ## C5 — summary validation of the memory append -/

/-- C5: the memory append fails exactly when the supplied summary trims
to the empty string (`!args.summary || !args.summary.trim()`), and in
that case the operation returns before any directory creation or write,
leaving the log state byte-for-byte unchanged. -/
theorem c5_validation (fs : Option (List MemLine)) (now : String) (a : MemArgs) :
    ((∃ e : String, (memoryCuratorExecute fs now a).2 = Except.error e) ↔
      trimString a.summary = "") ∧
    (trimString a.summary = "" → (memoryCuratorExecute fs now a).1 = fs) := by
  unfold memoryCuratorExecute
  by_cases h : trimString a.summary = ""
  · simp [h]
  · simp [h]

theorem c5_witness :
    trimString "   " = "" ∧
    (memoryCuratorExecute (some [MemLine.junk]) "t" ⟨"   ", [], []⟩).1 =
      some [MemLine.junk] ∧
    (∃ e : String, (memoryCuratorExecute (some [MemLine.junk]) "t"
      ⟨"   ", [], []⟩).2 = Except.error e) :=
  ⟨by decide,
   (c5_validation (some [MemLine.junk]) "t" ⟨"   ", [], []⟩).2 (by decide),
   ((c5_validation (some [MemLine.junk]) "t" ⟨"   ", [], []⟩).1).mpr (by decide)⟩

/-! ## C6 — tag / link normalization -/

theorem dedupe_fold_eq (parts : List String) (acc : List String) :
    ((parts.filter (fun p => trimString p ≠ "")).foldl
      (fun acc p =>
        let t := trimString p
        if t ≠ "" ∧ t ∉ acc then acc ++ [t] else acc)
      acc) =
    (((parts.map trimString).filter (fun t => t ≠ "")).foldl
      (fun acc t => if t ∈ acc then acc else acc ++ [t]) acc) := by
  induction parts generalizing acc with
  | nil => rfl
  | cons p ps ih =>
    by_cases hp : trimString p = ""
    · simp only [List.filter_cons, List.map_cons, hp]
      simpa using ih acc
    · simp only [List.filter_cons, List.map_cons]
      rw [if_pos (by simpa using hp), if_pos (by simpa using hp)]
      simp only [List.foldl_cons]
      by_cases hmem : trimString p ∈ acc
      · rw [if_neg (by simp [hmem]), if_pos hmem]
        exact ih acc
      · rw [if_pos ⟨hp, hmem⟩, if_neg hmem]
        exact ih (acc ++ [trimString p])

theorem normalize_fold_eq (items : List String) (acc : List String) :
    (items.foldl
      (fun acc item =>
        ((splitSep item).filter (fun p => trimString p ≠ "")).foldl
          (fun acc p =>
            let t := trimString p
            if t ≠ "" ∧ t ∉ acc then acc ++ [t] else acc)
          acc)
      acc) =
    (((items.flatMap (fun item => (splitSep item).map trimString)).filter
        (fun t => t ≠ "")).foldl
      (fun acc t => if t ∈ acc then acc else acc ++ [t]) acc) := by
  induction items generalizing acc with
  | nil => rfl
  | cons i is ih =>
    simp only [List.foldl_cons, List.flatMap_cons, List.filter_append,
      List.foldl_append]
    rw [dedupe_fold_eq]
    exact ih _

/-- C6: `splitAndDedupe` realizes exactly the normalization the spec
describes — split every token on `[,\s]+`, trim the pieces, discard the
empty ones, deduplicate preserving first-seen order over the flattened
sequence — and on the spec's example `["a, b", "b c"]` it returns
`["a", "b", "c"]`. -/
theorem c6_normalization :
    (∀ items : List String, splitAndDedupe items = specSplitNormalize items) ∧
    splitAndDedupe ["a, b", "b c"] = ["a", "b", "c"] := by
  constructor
  · intro items
    unfold splitAndDedupe specSplitNormalize firstSeenDedup
    exact normalize_fold_eq items []
  · decide

/-! ## C9 / C10 — task-manager update mode -/

theorem find?_map_replace (l : List (String × List FsFile)) (nm : String)
    (files : List FsFile) (h : l.any (fun p => p.1 = nm) = true) :
    (l.map (fun p => if p.1 = nm then (nm, files) else p)).find?
      (fun p => p.1 = nm) = some (nm, files) := by
  induction l with
  | nil => simp at h
  | cons p ps ih =>
    by_cases hp : p.1 = nm
    · simp [hp]
    · have h' : ps.any (fun p => p.1 = nm) = true := by
        simp only [List.any_cons] at h
        rcases Bool.or_eq_true_iff.mp h with h1 | h1
        · exact absurd (by simpa using h1) hp
        · exact h1
      simp only [List.map_cons, if_neg hp]
      rw [List.find?_cons_of_neg _ (by simpa using hp)]
      exact ih h'

theorem find?_append_new (l : List (String × List FsFile)) (nm : String)
    (files : List FsFile) (h : l.any (fun p => p.1 = nm) = false) :
    (l ++ [(nm, files)]).find? (fun p => p.1 = nm) = some (nm, files) := by
  induction l with
  | nil => simp
  | cons p ps ih =>
    simp only [List.any_cons, Bool.or_eq_false_iff] at h
    rw [List.cons_append, List.find?_cons_of_neg _ (by simpa using h.1)]
    exact ih h.2

theorem lookupDir_setDir (fs : MeridianFs) (nm : String) (files : List FsFile) :
    lookupDir (setDir fs nm files) nm = some files := by
  unfold lookupDir setDir
  by_cases h : fs.taskDirs.any (fun p => p.1 = nm) = true
  · rw [if_pos h, find?_map_replace fs.taskDirs nm files h]
    rfl
  · have h' : fs.taskDirs.any (fun p => p.1 = nm) = false := by
      cases hb : fs.taskDirs.any (fun p => p.1 = nm) with
      | true => exact absurd hb h
      | false => rfl
    rw [if_neg h, find?_append_new fs.taskDirs nm files h']
    rfl

/-- C9: update mode fails with a not-found error and touches nothing when
the target folder is missing; and when the folder exists but none of the
brief / plan / context / backlog arguments is truthy, it reports a no-op
and leaves the whole state unchanged. -/
theorem c9_update_guards :
    (∀ (fs : MeridianFs) (tid : String) (a : TaskArgs),
      a.taskId = some tid → tid ≠ "" → lookupDir fs tid = none →
      taskManagerExecute fs a = (fs, Except.error ("Task not found: " ++ tid))) ∧
    (∀ (fs : MeridianFs) (tid : String) (a : TaskArgs) (d : List FsFile),
      a.taskId = some tid → tid ≠ "" → lookupDir fs tid = some d →
      truthy a.taskBrief = false → truthy a.planContent = false →
      truthy a.contextContent = false → truthy a.backlogEntry = false →
      taskManagerExecute fs a = (fs, Except.ok ("Task not modified: " ++ tid))) := by
  constructor
  · intro fs tid a ha htid hlk
    unfold taskManagerExecute
    rw [ha]
    show (if tid ≠ "" then taskManagerUpdate fs tid a else taskManagerCreate fs a) = _
    rw [if_pos htid]
    unfold taskManagerUpdate
    rw [hlk]
  · intro fs tid a d ha htid hlk h1 h2 h3 h4
    unfold taskManagerExecute
    rw [ha]
    show (if tid ≠ "" then taskManagerUpdate fs tid a else taskManagerCreate fs a) = _
    rw [if_pos htid]
    unfold taskManagerUpdate
    rw [hlk]
    simp [h1, h2, h3, h4]

theorem c9_witness :
    taskManagerExecute ⟨[("TASK-001", [⟨"TASK-001.yaml", "c"⟩])], none⟩
        ⟨some "TASK-099", none, none, none, none⟩ =
      (⟨[("TASK-001", [⟨"TASK-001.yaml", "c"⟩])], none⟩,
        Except.error ("Task not found: " ++ "TASK-099")) ∧
    taskManagerExecute ⟨[("TASK-001", [⟨"TASK-001.yaml", "c"⟩])], none⟩
        ⟨some "TASK-001", none, none, some "", none⟩ =
      (⟨[("TASK-001", [⟨"TASK-001.yaml", "c"⟩])], none⟩,
        Except.ok ("Task not modified: " ++ "TASK-001")) :=
  ⟨c9_update_guards.1 _ "TASK-099" _ rfl (by decide) (by decide),
   c9_update_guards.2 _ "TASK-001" _ [⟨"TASK-001.yaml", "c"⟩] rfl (by decide)
     (by decide) rfl rfl rfl rfl⟩

/-- C10: in update mode the supplied `taskId` string is used verbatim as
the folder name with no format validation — any existing folder name
(including `TASK-000-template` or names not matching `TASK-###`) is
accepted — and the supplied brief is written to the file named
`<taskId>.yaml` inside that folder. -/
theorem c10_verbatim_taskid :
    ∀ (fs : MeridianFs) (tid b : String) (a : TaskArgs) (d : List FsFile),
      a.taskId = some tid → tid ≠ "" → lookupDir fs tid = some d →
      a.taskBrief = some b → b ≠ "" →
      truthy a.planContent = false → truthy a.contextContent = false →
      truthy a.backlogEntry = false →
      taskManagerExecute fs a =
        (setDir fs tid (writeFile d (tid ++ ".yaml") b),
          Except.ok ("Task updated: " ++ tid)) ∧
      lookupDir (setDir fs tid (writeFile d (tid ++ ".yaml") b)) tid =
        some (writeFile d (tid ++ ".yaml") b) := by
  intro fs tid b a d ha htid hlk hab hb hplan hctx hback
  have hbr : truthy a.taskBrief = true := by rw [hab]; simpa [truthy] using hb
  constructor
  · unfold taskManagerExecute
    rw [ha]
    show (if tid ≠ "" then taskManagerUpdate fs tid a else taskManagerCreate fs a) = _
    rw [if_pos htid]
    unfold taskManagerUpdate
    rw [hlk]
    have hb' : truthy (some b) = true := by simpa [truthy] using hb
    simp [hbr, hplan, hctx, hback, hab, hb']
  · exact lookupDir_setDir fs tid (writeFile d (tid ++ ".yaml") b)

theorem c10_witness :
    taskManagerExecute ⟨[("TASK-000-template", [⟨"x.md", "c"⟩])], none⟩
        ⟨some "TASK-000-template", some "b", none, none, none⟩ =
      (setDir ⟨[("TASK-000-template", [⟨"x.md", "c"⟩])], none⟩ "TASK-000-template"
          (writeFile [⟨"x.md", "c"⟩] ("TASK-000-template" ++ ".yaml") "b"),
        Except.ok ("Task updated: " ++ "TASK-000-template")) ∧
    lookupDir (setDir ⟨[("TASK-000-template", [⟨"x.md", "c"⟩])], none⟩
        "TASK-000-template"
        (writeFile [⟨"x.md", "c"⟩] ("TASK-000-template" ++ ".yaml") "b"))
        "TASK-000-template" =
      some (writeFile [⟨"x.md", "c"⟩] ("TASK-000-template" ++ ".yaml") "b") :=
  c10_verbatim_taskid ⟨[("TASK-000-template", [⟨"x.md", "c"⟩])], none⟩
    "TASK-000-template" "b" ⟨some "TASK-000-template", some "b", none, none, none⟩
    [⟨"x.md", "c"⟩] rfl (by decide) (by decide) rfl (by decide) rfl rfl rfl

/-! ## C8 — template-file renaming during task creation -/

/-- C8 counterexample: a copied template file whose name contains the
placeholder `TASK-000` but whose extension is not `.yaml`/`.yml`/`.md`
(here `TASK-000.txt`) is *not* renamed: after creating `TASK-007` the new
folder still contains `TASK-000.txt`, contradicting the claim that every
copied filename containing the placeholder is renamed. -/
theorem c8_counterexample :
    taskManagerExecute
        ⟨[("TASK-000-template", [⟨"TASK-000.txt", "x"⟩]), ("TASK-006", [])], none⟩
        ⟨none, none, none, none, none⟩ =
      (⟨[("TASK-000-template", [⟨"TASK-000.txt", "x"⟩]), ("TASK-006", []),
          ("TASK-007", [⟨"TASK-000.txt", "x"⟩])], none⟩,
        Except.ok ("Task created: TASK-007")) := by
  decide

set_option maxHeartbeats 4000000 in
/-- C8 (amended): during task creation every copied filename with
extension `.yaml`, `.yml` or `.md` (case-insensitive) containing the
placeholder `TASK-000` is renamed by substituting the new task ID for the
placeholder's first occurrence, and the rename fails with a conflict
error when the target name already exists; files with other extensions
keep their placeholder names.  In particular, creating `TASK-007` from a
template containing `TASK-000.yaml`, `TASK-000-plan.md` and
`TASK-000-context.md` yields a folder with exactly `TASK-007.yaml`,
`TASK-007-plan.md` and `TASK-007-context.md`, carrying the template
contents. -/
theorem c8_template_rename :
    (∀ (c1 c2 c3 : String) (d : List FsFile),
      taskManagerExecute
          ⟨[("TASK-000-template",
              [⟨"TASK-000.yaml", c1⟩, ⟨"TASK-000-plan.md", c2⟩,
                ⟨"TASK-000-context.md", c3⟩]),
            ("TASK-006", d)], none⟩
          ⟨none, none, none, none, none⟩ =
        (⟨[("TASK-000-template",
              [⟨"TASK-000.yaml", c1⟩, ⟨"TASK-000-plan.md", c2⟩,
                ⟨"TASK-000-context.md", c3⟩]),
            ("TASK-006", d),
            ("TASK-007",
              [⟨"TASK-007.yaml", c1⟩, ⟨"TASK-007-plan.md", c2⟩,
                ⟨"TASK-007-context.md", c3⟩])], none⟩,
          Except.ok ("Task created: TASK-007"))) ∧
    (∀ c d : String,
      renameTemplateFiles [⟨"TASK-000.yaml", c⟩, ⟨"TASK-007.yaml", d⟩] "TASK-007" =
        Except.error "rename target already exists") :=
  ⟨fun _ _ _ _ => rfl, fun _ _ => rfl⟩

/-! ## C7 — idempotence of the backlog add-or-replace patch -/

theorem splitNlC_ne_nil (s : List Char) : splitNlC s ≠ [] := by
  cases s with
  | nil => simp [splitNlC]
  | cons c rest =>
    simp only [splitNlC]
    split
    · simp
    · split
      · simp
      · simp

theorem noNl_splitNlC (s : List Char) : ∀ p ∈ splitNlC s, '\n' ∉ p := by
  induction s with
  | nil =>
    intro p hp
    simp [splitNlC] at hp
    simp [hp]
  | cons c rest ih =>
    intro p hp
    simp only [splitNlC] at hp
    by_cases hc : c = '\n'
    · rw [if_pos hc] at hp
      rcases List.mem_cons.mp hp with rfl | hp'
      · simp
      · exact ih p hp'
    · rw [if_neg hc] at hp
      cases hrec : splitNlC rest with
      | nil => exact absurd hrec (splitNlC_ne_nil rest)
      | cons q qs =>
        rw [hrec] at hp
        rcases List.mem_cons.mp hp with rfl | hp'
        · intro hmem
          rcases List.mem_cons.mp hmem with h | h
          · exact hc h.symm
          · exact ih q (by rw [hrec]; simp) h
        · exact ih p (by rw [hrec]; simp [hp'])

theorem splitNlC_append (a b : List Char) :
    splitNlC (a ++ '\n' :: b) = splitNlC a ++ splitNlC b := by
  induction a with
  | nil => simp [splitNlC]
  | cons c a' ih =>
    by_cases hc : c = '\n'
    · subst hc
      show splitNlC ('\n' :: (a' ++ '\n' :: b)) = splitNlC ('\n' :: a') ++ splitNlC b
      simp only [splitNlC, if_pos rfl]
      rw [ih]
      rfl
    · show splitNlC (c :: (a' ++ '\n' :: b)) = splitNlC (c :: a') ++ splitNlC b
      simp only [splitNlC, if_neg hc]
      rw [ih]
      cases hrec : splitNlC a' with
      | nil => exact absurd hrec (splitNlC_ne_nil a')
      | cons q qs => rfl

theorem splitNlC_no_newline (x : List Char) (h : '\n' ∉ x) : splitNlC x = [x] := by
  induction x with
  | nil => rfl
  | cons c rest ih =>
    have hc : ¬ c = '\n' := fun hcc => h (by simp [hcc])
    have hrest : '\n' ∉ rest := fun hr => h (by simp [hr])
    simp only [splitNlC, if_neg hc, ih hrest]

theorem joinNlC_cons (x : List Char) (L : List (List Char)) (h : L ≠ []) :
    joinNlC (x :: L) = x ++ '\n' :: joinNlC L := by
  cases L with
  | nil => exact absurd rfl h
  | cons y ys => rfl

theorem splitNlC_joinNlC (L : List (List Char)) (h : L ≠ [])
    (hnl : ∀ p ∈ L, '\n' ∉ p) : splitNlC (joinNlC L) = L := by
  induction L with
  | nil => exact absurd rfl h
  | cons x L' ih =>
    cases L' with
    | nil => exact splitNlC_no_newline x (hnl x (by simp))
    | cons y ys =>
      rw [joinNlC_cons x (y :: ys) (by simp), splitNlC_append,
        splitNlC_no_newline x (hnl x (by simp))]
      rw [ih (by simp) (fun p hp => hnl p (by simp [hp]))]
      rfl

theorem joinNlC_cons_ne_nil (a : List Char) (L : List (List Char)) (h : a ≠ []) :
    joinNlC (a :: L) ≠ [] := by
  cases L with
  | nil => simpa [joinNlC]
  | cons y ys => simp [joinNlC_cons a (y :: ys) (by simp), h]

section ListScan

variable {α : Type*}

theorem findIdx_append_false (q : α → Bool) (B R : List α)
    (h : ∀ b ∈ B, q b = false) :
    (B ++ R).findIdx q = B.length + R.findIdx q := by
  induction B with
  | nil => simp
  | cons b B' ih =>
    have hb : q b = false := h b (by simp)
    rw [List.cons_append, List.findIdx_cons, hb]
    simp only [cond_false]
    rw [ih (fun x hx => h x (by simp [hx]))]
    simp [List.length_cons]
    omega

theorem takeWhile_all (q : α → Bool) (A : List α) (h : ∀ a ∈ A, q a = true) :
    A.takeWhile q = A := by
  induction A with
  | nil => rfl
  | cons a A' ih =>
    rw [List.takeWhile_cons, if_pos (h a (by simp)),
      ih (fun x hx => h x (by simp [hx]))]

theorem takeWhile_append_all (q : α → Bool) (A B : List α)
    (h : ∀ a ∈ A, q a = true) :
    (A ++ B).takeWhile q = A ++ B.takeWhile q := by
  induction A with
  | nil => rfl
  | cons a A' ih =>
    rw [List.cons_append, List.takeWhile_cons, if_pos (h a (by simp))]
    rw [ih (fun x hx => h x (by simp [hx]))]
    rfl

theorem drop_takeWhile_length (q : α → Bool) (R : List α) :
    R.drop (R.takeWhile q).length = R.dropWhile q := by
  induction R with
  | nil => rfl
  | cons a R' ih =>
    rw [List.takeWhile_cons, List.dropWhile_cons]
    by_cases ha : q a = true
    · rw [if_pos ha, if_pos ha, List.length_cons, List.drop_succ_cons, ih]
    · rw [if_neg ha, if_neg ha]
      rfl

theorem dropWhile_structure (q : α → Bool) (R : List α) :
    R.dropWhile q = [] ∨
      ∃ a R', R.dropWhile q = a :: R' ∧ q a = false := by
  induction R with
  | nil => exact Or.inl rfl
  | cons a R' ih =>
    rw [List.dropWhile_cons]
    by_cases ha : q a = true
    · rw [if_pos ha]; exact ih
    · rw [if_neg ha]
      exact Or.inr ⟨a, R', rfl, by simpa using ha⟩

theorem take_findIdx_false (q : α → Bool) (l : List α) :
    ∀ a ∈ l.take (l.findIdx q), q a = false := by
  induction l with
  | nil => simp
  | cons b l' ih =>
    intro a ha
    rw [List.findIdx_cons] at ha
    by_cases hb : q b = true
    · rw [hb] at ha; simp at ha
    · have hb' : q b = false := by simpa using hb
      rw [hb'] at ha
      simp only [cond_false, List.take_succ_cons] at ha
      rcases List.mem_cons.mp ha with rfl | ha'
      · exact hb'
      · exact ih a ha'

end ListScan

theorem replaceEntry_decomp (tid entry e0 : List Char) (es Bs A : List (List Char))
    (hB : ∀ l ∈ Bs, matchIdLineC tid l = false)
    (he0 : matchIdLineC tid e0 = true)
    (hes : ∀ l ∈ es, matchGenericIdC l = false)
    (hA : A = [] ∨ ∃ a0 A', A = a0 :: A' ∧ matchGenericIdC a0 = true) :
    replaceEntry (Bs ++ (e0 :: (es ++ A))) tid entry =
      joinNlC Bs ++ (if joinNlC Bs = [] then [] else ['\n']) ++ entry ++
        (if joinNlC A = [] then [] else '\n' :: joinNlC A) := by
  have hi : (Bs ++ (e0 :: (es ++ A))).findIdx (matchIdLineC tid) = Bs.length := by
    rw [findIdx_append_false _ _ _ hB, List.findIdx_cons, he0]
    simp
  have htake : (Bs ++ (e0 :: (es ++ A))).take Bs.length = Bs := List.take_left Bs _
  have hdrop1 : (Bs ++ (e0 :: (es ++ A))).drop (Bs.length + 1) = es ++ A := by
    rw [← List.drop_drop, List.drop_left]
    simp
  rcases hA with rfl | ⟨a0, A', rfl, hga0⟩
  · have htw : (es ++ ([] : List (List Char))).takeWhile
        (fun l => !matchGenericIdC l) = es := by
      rw [List.append_nil]
      exact takeWhile_all _ _ (fun l hl => by simp [hes l hl])
    have hdropj : (Bs ++ (e0 :: (es ++ ([] : List (List Char))))).drop
        (Bs.length + 1 + es.length) = [] := by
      refine List.drop_eq_nil_of_le ?_
      simp [List.length_append]
      omega
    simp only [replaceEntry]
    rw [hi, htake, hdrop1, htw, hdropj]
  · have htw : (es ++ a0 :: A').takeWhile (fun l => !matchGenericIdC l) = es := by
      rw [takeWhile_append_all _ _ _ (fun l hl => by simp [hes l hl]),
        List.takeWhile_cons, if_neg (by simp [hga0])]
      simp
    have hdropj : (Bs ++ (e0 :: (es ++ a0 :: A'))).drop
        (Bs.length + 1 + es.length) = a0 :: A' := by
      rw [← List.drop_drop, hdrop1, List.drop_left]
    simp only [replaceEntry]
    rw [hi, htake, hdrop1, htw, hdropj]

theorem matchGenericIdC_nil : matchGenericIdC [] = false := by decide

/-- Any output of the replace branch — `before ⊕ entry ⊕ after` with no
id-pattern line before the block and a generic-id line (or nothing)
after it — is a fixed point of `updateBacklogC`, provided the entry block
starts with the id line and contains no further `id:` lines. -/
theorem updateBacklog_shape_fixed (tid entry e0 : List Char)
    (es B A : List (List Char))
    (hsE : splitNlC entry = e0 :: es)
    (he0 : matchIdLineC tid e0 = true)
    (hes : ∀ l ∈ es, matchGenericIdC l = false)
    (hBnl : ∀ l ∈ B, '\n' ∉ l)
    (hAnl : ∀ l ∈ A, '\n' ∉ l)
    (hBp : ∀ l ∈ B, matchIdLineC tid l = false)
    (hA : A = [] ∨ ∃ a0 A', A = a0 :: A' ∧ matchGenericIdC a0 = true) :
    updateBacklogC
        (some (joinNlC B ++ (if joinNlC B = [] then [] else ['\n']) ++ entry ++
          (if joinNlC A = [] then [] else '\n' :: joinNlC A))) tid entry =
      joinNlC B ++ (if joinNlC B = [] then [] else ['\n']) ++ entry ++
        (if joinNlC A = [] then [] else '\n' :: joinNlC A) := by
  have hAcase : joinNlC A = [] → A = [] := by
    intro haf
    rcases hA with rfl | ⟨a0, A', rfl, hga⟩
    · rfl
    · have ha0 : a0 ≠ [] := by
        intro h0
        rw [h0, matchGenericIdC_nil] at hga
        exact Bool.false_ne_true hga
      exact absurd haf (joinNlC_cons_ne_nil a0 A' ha0)
  by_cases hbe : joinNlC B = []
  · by_cases haf : joinNlC A = []
    · -- both sides empty: the file is exactly `entry`
      have hsh : joinNlC B ++ (if joinNlC B = [] then [] else ['\n']) ++ entry ++
          (if joinNlC A = [] then [] else '\n' :: joinNlC A) = entry := by
        rw [hbe, haf]
        simp
      rw [hsh]
      simp only [updateBacklogC]
      rw [hsE, if_pos (by simp [he0] : (e0 :: es).any (matchIdLineC tid) = true)]
      have hd := replaceEntry_decomp tid entry e0 es [] [] (by simp) he0 hes
        (Or.inl rfl)
      simp only [List.nil_append, List.append_nil] at hd
      rw [hd]
      simp [joinNlC]
    · -- empty head, non-empty tail: the file is `entry ++ "\n" ++ after`
      have hAne : A ≠ [] := fun h => haf (by rw [h]; rfl)
      have hsh : joinNlC B ++ (if joinNlC B = [] then [] else ['\n']) ++ entry ++
          (if joinNlC A = [] then [] else '\n' :: joinNlC A) =
          entry ++ '\n' :: joinNlC A := by
        rw [hbe]
        simp [if_neg haf]
      rw [hsh]
      simp only [updateBacklogC]
      rw [splitNlC_append, splitNlC_joinNlC A hAne hAnl, hsE]
      rw [if_pos (by simp [he0] : ((e0 :: es) ++ A).any (matchIdLineC tid) = true)]
      have hd := replaceEntry_decomp tid entry e0 es [] A (by simp) he0 hes hA
      simp only [List.nil_append] at hd
      rw [show (e0 :: es) ++ A = e0 :: (es ++ A) from by simp, hd]
      simp [joinNlC, if_neg haf]
  · have hBne : B ≠ [] := fun h => hbe (by rw [h]; rfl)
    by_cases haf : joinNlC A = []
    · -- non-empty head, empty tail: the file is `before ++ "\n" ++ entry`
      have hAnil : A = [] := hAcase haf
      subst hAnil
      have hsh : joinNlC B ++ (if joinNlC B = [] then [] else ['\n']) ++ entry ++
          (if joinNlC ([] : List (List Char)) = [] then []
            else '\n' :: joinNlC ([] : List (List Char))) =
          joinNlC B ++ '\n' :: entry := by
        simp [if_neg hbe, joinNlC]
      rw [hsh]
      simp only [updateBacklogC]
      rw [splitNlC_append, splitNlC_joinNlC B hBne hBnl, hsE]
      rw [if_pos (by simp [he0] : (B ++ e0 :: es).any (matchIdLineC tid) = true)]
      have hd := replaceEntry_decomp tid entry e0 es B [] hBp he0 hes (Or.inl rfl)
      simp only [List.append_nil] at hd
      rw [hd]
      simp [joinNlC, if_neg hbe]
    · -- non-empty on both sides
      have hAne : A ≠ [] := fun h => haf (by rw [h]; rfl)
      have hsh : joinNlC B ++ (if joinNlC B = [] then [] else ['\n']) ++ entry ++
          (if joinNlC A = [] then [] else '\n' :: joinNlC A) =
          joinNlC B ++ '\n' :: (entry ++ '\n' :: joinNlC A) := by
        simp [if_neg hbe, if_neg haf]
      rw [hsh]
      simp only [updateBacklogC]
      rw [splitNlC_append, splitNlC_append, splitNlC_joinNlC B hBne hBnl,
        splitNlC_joinNlC A hAne hAnl, hsE]
      rw [if_pos (by simp [he0] :
        (B ++ ((e0 :: es) ++ A)).any (matchIdLineC tid) = true)]
      have hd := replaceEntry_decomp tid entry e0 es B A hBp he0 hes hA
      rw [show (e0 :: es) ++ A = e0 :: (es ++ A) from by simp, hd]
      simp [if_neg hbe, if_neg haf]

/-- C7 (amended): the add-or-replace patch is idempotent on every
starting file that already contains a line matching the task's id
pattern (the replace path), for blocks that begin with the id line and
contain no other `id:` line. -/
theorem c7_replace_idempotent (x tid entry : List Char)
    (hx : (splitNlC x).any (matchIdLineC tid) = true)
    (he1 : matchIdLineC tid ((splitNlC entry).headI) = true)
    (he2 : ∀ l ∈ (splitNlC entry).tail, matchGenericIdC l = false) :
    updateBacklogC (some (updateBacklogC (some x) tid entry)) tid entry =
      updateBacklogC (some x) tid entry := by
  obtain ⟨e0, es, hsE⟩ : ∃ e0 es, splitNlC entry = e0 :: es := by
    cases h : splitNlC entry with
    | nil => exact absurd h (splitNlC_ne_nil entry)
    | cons a l => exact ⟨a, l, rfl⟩
  have he0 : matchIdLineC tid e0 = true := by rw [hsE] at he1; simpa using he1
  have hes : ∀ l ∈ es, matchGenericIdC l = false := by
    intro l hl
    apply he2
    rw [hsE]
    simpa using hl
  have hy : updateBacklogC (some x) tid entry =
      replaceEntry (splitNlC x) tid entry := by
    simp only [updateBacklogC]
    rw [if_pos hx]
  have hBp := take_findIdx_false (matchIdLineC tid) (splitNlC x)
  have hBnl : ∀ l ∈ (splitNlC x).take ((splitNlC x).findIdx (matchIdLineC tid)),
      '\n' ∉ l := fun l hl => noNl_splitNlC x l (List.mem_of_mem_take hl)
  have hAnl : ∀ l ∈ (splitNlC x).drop
      ((splitNlC x).findIdx (matchIdLineC tid) + 1 +
        (((splitNlC x).drop ((splitNlC x).findIdx (matchIdLineC tid) + 1)).takeWhile
          (fun l => !matchGenericIdC l)).length), '\n' ∉ l :=
    fun l hl => noNl_splitNlC x l (List.mem_of_mem_drop hl)
  have hAeq : (splitNlC x).drop
      ((splitNlC x).findIdx (matchIdLineC tid) + 1 +
        (((splitNlC x).drop ((splitNlC x).findIdx (matchIdLineC tid) + 1)).takeWhile
          (fun l => !matchGenericIdC l)).length) =
      ((splitNlC x).drop ((splitNlC x).findIdx (matchIdLineC tid) + 1)).dropWhile
        (fun l => !matchGenericIdC l) := by
    rw [← drop_takeWhile_length (fun l => !matchGenericIdC l)
      ((splitNlC x).drop ((splitNlC x).findIdx (matchIdLineC tid) + 1)),
      List.drop_drop]
  have hAstruct : (splitNlC x).drop
      ((splitNlC x).findIdx (matchIdLineC tid) + 1 +
        (((splitNlC x).drop ((splitNlC x).findIdx (matchIdLineC tid) + 1)).takeWhile
          (fun l => !matchGenericIdC l)).length) = [] ∨
      ∃ a0 A', (splitNlC x).drop
        ((splitNlC x).findIdx (matchIdLineC tid) + 1 +
          (((splitNlC x).drop ((splitNlC x).findIdx (matchIdLineC tid) + 1)).takeWhile
            (fun l => !matchGenericIdC l)).length) = a0 :: A' ∧
        matchGenericIdC a0 = true := by
    rcases dropWhile_structure (fun l => !matchGenericIdC l)
        ((splitNlC x).drop ((splitNlC x).findIdx (matchIdLineC tid) + 1)) with
      h | ⟨a0, A', hEq, hq⟩
    · left
      rw [hAeq, h]
    · right
      refine ⟨a0, A', by rw [hAeq, hEq], ?_⟩
      simpa using hq
  have key := updateBacklog_shape_fixed tid entry e0 es
    ((splitNlC x).take ((splitNlC x).findIdx (matchIdLineC tid)))
    ((splitNlC x).drop
      ((splitNlC x).findIdx (matchIdLineC tid) + 1 +
        (((splitNlC x).drop ((splitNlC x).findIdx (matchIdLineC tid) + 1)).takeWhile
          (fun l => !matchGenericIdC l)).length))
    hsE he0 hes hBnl hAnl hBp hAstruct
  rw [hy]
  exact key

/-- C7 counterexample: starting from a missing index file, adding the
block `  - id: TASK-001` twice is *not* byte-for-byte the same as adding
it once — the first application writes `tasks:\n  - id: TASK-001\n`, and
the second, replacing the final block, drops the trailing newline. -/
theorem c7_counterexample :
    updateBacklogC
        (some (updateBacklogC none ("TASK-001".toList) ("  - id: TASK-001".toList)))
        ("TASK-001".toList) ("  - id: TASK-001".toList) ≠
      updateBacklogC none ("TASK-001".toList) ("  - id: TASK-001".toList) := by
  decide

theorem c7_witness :
    (splitNlC "tasks:\n  - id: TASK-001\n  note: a".toList).any
        (matchIdLineC "TASK-001".toList) = true ∧
    matchIdLineC ("TASK-001".toList)
        ((splitNlC "  - id: TASK-001\n  note: b".toList).headI) = true ∧
    (∀ l ∈ (splitNlC "  - id: TASK-001\n  note: b".toList).tail,
      matchGenericIdC l = false) ∧
    updateBacklogC
        (some (updateBacklogC (some "tasks:\n  - id: TASK-001\n  note: a".toList)
          ("TASK-001".toList) ("  - id: TASK-001\n  note: b".toList)))
        ("TASK-001".toList) ("  - id: TASK-001\n  note: b".toList) =
      updateBacklogC (some "tasks:\n  - id: TASK-001\n  note: a".toList)
        ("TASK-001".toList) ("  - id: TASK-001\n  note: b".toList) :=
  ⟨by decide, by decide, by decide,
   c7_replace_idempotent "tasks:\n  - id: TASK-001\n  note: a".toList
     ("TASK-001".toList) ("  - id: TASK-001\n  note: b".toList)
     (by decide) (by decide) (by decide)⟩

end Meridian
